import Mathlib

/-!
# Verification of `export_master_artwork.jsx`

A shallow embedding of the core logic of the Illustrator export script
`src/export_master_artwork.jsx`, together with theorems settling the
specification claims about it.

Modelling conventions:
* ExtendScript strings are Lean `String`s; the character-level operations the
  script performs (trim, toLowerCase, split, regex tests on `\d`) are
  translated as explicit functions over `List Char` (a `String` is a structure
  over its character list).
* Numbers are `ℚ` (the script only ever manipulates exact decimal literals and
  integers parsed from digit strings).
* The host document tree (layers, page items, groups) is an explicit tree
  value; `pageItems` of a container are its direct children, and the script's
  recursion into `GroupItem`s is the tree recursion.
* JavaScript mutation of `hidden` / `visible` flags becomes explicit state
  passing; the hidden-items ledger, an array of object references in the
  script, is modelled as the list of the (unique) numeric ids of the recorded
  items, and `restoreItems` as the corresponding id-directed update.
* `try { ... } catch (e) {}` around property reads becomes `Except Unit` /
  `Option` values carried by the item data.
-/

/-! ## Character-level string operations

These translate the JavaScript string operations used by the script:
`replace(/^\s+|\s+$/g, '')` (trim), `toLowerCase`, `indexOf`,
`split('x')`, and the regex tests `^\d+x\d+$`, `^\d+$`, `^79x\d+$`. -/

/-- Whitespace characters for the script's trim regex `\s`. -/
def isSpaceChar (c : Char) : Bool :=
  c == ' ' || c == '\t' || c == '\n' || c == '\r'

/-- `name.replace(/^\s+|\s+$/g, '')` — trim leading and trailing whitespace. -/
def trimName (s : String) : String :=
  ⟨((s.data.dropWhile isSpaceChar).reverse.dropWhile isSpaceChar).reverse⟩

/-- ASCII lower-casing of one character (JavaScript `toLowerCase` on the
ASCII names the script deals with). -/
def lowerChar (c : Char) : Char :=
  if 'A' ≤ c ∧ c ≤ 'Z' then Char.ofNat (c.toNat + 32) else c

/-- `s.toLowerCase()`. -/
def toLowerStr (s : String) : String :=
  ⟨s.data.map lowerChar⟩

/-- Does `s` contain `pat` as a contiguous sublist?  This is
`s.indexOf(pat) >= 0` for the non-empty patterns the script searches for. -/
def hasSubstr : List Char → List Char → Bool
  | s, pat =>
    pat.isPrefixOf s ||
      match s with
      | [] => false
      | _ :: t => hasSubstr t pat

/-- `lowerName.indexOf(pattern) >= 0` at the `String` level. -/
def strContains (s pat : String) : Bool :=
  hasSubstr s.data pat.data

/-- `s.split('x')` — JavaScript split on the single character `c`. -/
def splitOnChar (c : Char) : List Char → List (List Char)
  | [] => [[]]
  | a :: rest =>
    let r := splitOnChar c rest
    if a == c then
      [] :: r
    else
      match r with
      | [] => [[a]]
      | h :: t => (a :: h) :: t

/-- The regex test `^\d+$`. -/
def regexAllDigits (l : List Char) : Bool :=
  !l.isEmpty && l.all Char.isDigit

/-- The regex test `^\d+x\d+$`: a non-empty digit run, the letter `x`,
then another non-empty digit run. -/
def regexWxH (l : List Char) : Bool :=
  match l.span Char.isDigit with
  | (d1, c :: rest) => !d1.isEmpty && c == 'x' && !rest.isEmpty && rest.all Char.isDigit
  | (_, []) => false

/-- `parseFloat` on an all-digit string: the denoted natural number. -/
def natOfDigits (l : List Char) : Nat :=
  l.foldl (fun n c => n * 10 + (c.toNat - 48)) 0

/-! ## Configuration (`CONFIG`) -/

/-- `CONFIG.cutContourPatterns` — case-insensitive substring patterns
identifying cut-contour elements. -/
def cutContourPatterns : List String :=
  ["cutcontour", "cut contour", "dieline", "die line", "diecut", "die cut",
   "kiss cut", "kisscut", "contour", "thru-cut", "thru cut", "throughcut",
   "through cut", "perf", "score"]

/-- One entry of `CONFIG.sizeMapping`: output size group, bleed width and
height in points, and the optional template group tag. -/
structure SizeEntry where
  sizeGroup : String
  bleedWidth : ℚ
  bleedHeight : ℚ
  templateGroup : Option String
deriving DecidableEq, Repr

/-- `CONFIG.sizeMapping` — the static table from trimmed layer name to
output identifier and bleed dimensions. -/
def sizeMapping (name : String) : Option SizeEntry :=
  if name = "35" then some ⟨"79x90", 85.04, 95.67, none⟩
  else if name = "55" then some ⟨"79x91", 85.04, 97.09, none⟩
  else if name = "75" then some ⟨"79x94", 85.04, 99.21, none⟩
  else if name = "100" then some ⟨"79x95", 85.04, 100.63, none⟩
  else if name = "130" then some ⟨"79x98", 85.04, 103.46, none⟩
  else if name = "180" then some ⟨"79x101", 85.04, 106.30, none⟩
  else if name = "54x72" then some ⟨"54x72", 57, 75, some "Top Loader"⟩
  else if name = "toploader-narrow" then some ⟨"54x72", 57, 75, some "Top Loader"⟩
  else if name = "76x102" then some ⟨"76x102", 79, 105, some "Top Loader"⟩
  else if name = "64x79" then some ⟨"64x79", 67, 82, some "Top Loader"⟩
  else if name = "toploader-wide" then some ⟨"76x102", 79, 105, some "Top Loader"⟩
  else none

/-- `isCutContourName(name)`: false for a falsy (empty) name, otherwise true
iff the lower-cased name contains one of the configured patterns. -/
def isCutContourName (name : String) : Bool :=
  if name = "" then false
  else cutContourPatterns.any fun p => strContains (toLowerStr name) p

/-! ## Items and the cut-contour classifier -/

/-- The `typename`s the script distinguishes. -/
inductive ItemKind where
  | pathItem
  | compoundPathItem
  | groupItem
  | other
deriving DecidableEq, Repr

/-- What inspecting a stroke/fill color yields.  `spotNamed n` is a
`SpotColor` whose `spot.name` reads as `n`; `spotFault` is a `SpotColor`
whose `spot.name` access raises (the swallowed property-read fault);
`nonSpot` is any non-spot color. -/
inductive ColorRead where
  | spotNamed (n : String)
  | spotFault
  | nonSpot
deriving DecidableEq, Repr

/-- Bounding box `[left, top, right, bottom]` in document coordinates. -/
structure Box where
  left : ℚ
  top : ℚ
  right : ℚ
  bottom : ℚ
deriving DecidableEq, Repr

/-- The scalar data of one page item.  `strokeColor`/`fillColor` being `none`
models a falsy color property; `geom` being `none` models `geometricBounds`
raising on read (`geom` is only consulted for non-group items — a group's
bounds come from its children, see `itemGeomBounds`). -/
structure ItemData where
  id : Nat
  name : String
  hidden : Bool
  kind : ItemKind
  stroked : Bool
  strokeColor : Option ColorRead
  filled : Bool
  fillColor : Option ColorRead
  geom : Option Box
deriving DecidableEq, Repr

/-- The `try { ... } catch (e) {}` block of `shouldHideItem`: inspect stroke
then fill color of a path-like item; `.error ()` is a raised (and later
swallowed) property-read fault, `.ok true` means a contour spot color was
found. -/
def colorCheck (d : ItemData) : Except Unit Bool :=
  if d.kind = ItemKind.pathItem ∨ d.kind = ItemKind.compoundPathItem then do
    let stroke ←
      if d.stroked then
        match d.strokeColor with
        | some (ColorRead.spotNamed n) => pure (isCutContourName n)
        | some ColorRead.spotFault => Except.error ()
        | some ColorRead.nonSpot => pure false
        | none => pure false
      else
        pure false
    if stroke then
      pure true
    else
      if d.filled then
        match d.fillColor with
        | some (ColorRead.spotNamed n) => pure (isCutContourName n)
        | some ColorRead.spotFault => Except.error ()
        | some ColorRead.nonSpot => pure false
        | none => pure false
      else
        pure false
  else
    pure false

/-- The name rule of the classifier: `item.name && isCutContourName(item.name)`
(an empty name is falsy). -/
def nameRuleMatches (d : ItemData) : Bool :=
  !(d.name = "") && isCutContourName d.name

/-- `shouldHideItem(item)`.  The item's children play no role in the
decision, so the classifier takes the item's scalar data.  Order as in the
source: name rule first; then the try/catch color inspection (a fault falls
through); then the (redundant) group-name re-check; otherwise false. -/
def shouldHideItem (d : ItemData) : Bool :=
  if nameRuleMatches d then true
  else
    match colorCheck d with
    | Except.ok true => true
    | _ =>
      if d.kind = ItemKind.groupItem ∧ nameRuleMatches d then true
      else false

/-! ## The item tree -/

mutual
/-- A page item: its scalar data plus its `pageItems` children (non-empty only
for containers). -/
inductive Item : Type where
  | mk (data : ItemData) (children : ItemList)
deriving DecidableEq

/-- A `pageItems` collection: the ordered direct children of a container. -/
inductive ItemList : Type where
  | nil
  | cons (head : Item) (tail : ItemList)
deriving DecidableEq
end

/-- Scalar data of an item. -/
def Item.data : Item → ItemData
  | .mk d _ => d

/-- Children of an item. -/
def Item.children : Item → ItemList
  | .mk _ cs => cs

mutual
/-- Preorder list of the ids in an item's subtree. -/
def itemIds : Item → List Nat
  | .mk d cs => d.id :: listIds cs

/-- Preorder list of the ids in a collection. -/
def listIds : ItemList → List Nat
  | .nil => []
  | .cons it rest => itemIds it ++ listIds rest
end

mutual
/-- Preorder list of `(id, hidden)` pairs of an item's subtree — the
observable visibility state. -/
def itemFlags : Item → List (Nat × Bool)
  | .mk d cs => (d.id, d.hidden) :: listFlags cs

/-- Preorder list of `(id, hidden)` pairs of a collection. -/
def listFlags : ItemList → List (Nat × Bool)
  | .nil => []
  | .cons it rest => itemFlags it ++ listFlags rest
end

/-! ## Hide traversal and restoration -/

mutual
/-- Processing of one item by the loop body of `hideAllCutContourItems` /
`hideAllCutContourItemsInGroup`: an already-hidden item is skipped; a
classified item is hidden and its id recorded in the ledger; a group is
recursed into; anything else is untouched. -/
def hideItem : Item → Item × List Nat
  | .mk d cs =>
    if d.hidden then (.mk d cs, [])
    else if shouldHideItem d then (.mk { d with hidden := true } cs, [d.id])
    else if d.kind = ItemKind.groupItem then
      let r := hideList cs
      (.mk d r.1, r.2)
    else (.mk d cs, [])

/-- The loop of `hideAllCutContourItems` over a `pageItems` collection,
returning the updated collection and the ledger (in push order). -/
def hideList : ItemList → ItemList × List Nat
  | .nil => (.nil, [])
  | .cons it rest =>
    let a := hideItem it
    let b := hideList rest
    (.cons a.1 b.1, a.2 ++ b.2)
end

/-- `hideAllCutContourItems(container, hiddenItems)`: run the hide traversal
on a container's items, returning the new items and the ledger. -/
def hideAllCutContourItems (items : ItemList) : ItemList × List Nat :=
  hideList items

/-- `hideAllCutContourItemsInGroup` has the identical loop body. -/
def hideAllCutContourItemsInGroup (items : ItemList) : ItemList × List Nat :=
  hideList items

mutual
/-- Set `hidden = false` on every item whose id the ledger records.  In the
script the ledger holds object references and `restoreItems` assigns through
them; with unique ids this id-directed update is that assignment. -/
def restoreItem (ledger : List Nat) : Item → Item
  | .mk d cs =>
    .mk (if d.id ∈ ledger then { d with hidden := false } else d)
      (restoreList ledger cs)

/-- `restoreItems(items)` over a collection. -/
def restoreList (ledger : List Nat) : ItemList → ItemList
  | .nil => .nil
  | .cons it rest => .cons (restoreItem ledger it) (restoreList ledger rest)
end

/-- `restoreItems(hiddenItems)` applied to a layer's item collection. -/
def restoreItems (ledger : List Nat) (items : ItemList) : ItemList :=
  restoreList ledger items

/-! ## Bounds aggregation

`collectBoundsRecursive` starts from the sentinel `{left: ∞, top: -∞,
right: -∞, bottom: ∞}` and, for each non-hidden item whose
`geometricBounds` read succeeds, folds the box in coordinate-wise; the
sentinel survives exactly until the first successful read, so the
accumulator is represented as an `Option Box` (`none` = still the sentinel,
which is also the `boundsObj.left === Infinity` test of `getLayerBounds`).

Host behaviour modelled here (the script reads it through the host API):
`GroupItem.geometricBounds` is the union of the geometric bounds of the
group's non-hidden descendants, and the read fails (is skipped by the
`catch`) when no descendant contributes. -/

/-- Coordinate-wise accumulation of one box into the accumulator:
`left := min`, `top := max`, `right := max`, `bottom := min`. -/
def mergeBounds (acc : Option Box) (b : Box) : Option Box :=
  match acc with
  | none => some b
  | some a => some ⟨min b.left a.left, max b.top a.top, max b.right a.right,
      min b.bottom a.bottom⟩

mutual
/-- `item.geometricBounds`: the stored box of a leaf item (`none` = the read
raises); for a group, the union over its non-hidden descendants. -/
def itemGeomBounds : Item → Option Box
  | .mk d cs =>
    if d.kind = ItemKind.groupItem then collectBoundsRecursive cs none
    else d.geom

/-- `collectBoundsRecursive(items, boundsObj)`: fold the readable bounds of
the non-hidden items of the collection into the accumulator, skipping items
whose bounds read fails. -/
def collectBoundsRecursive : ItemList → Option Box → Option Box
  | .nil, acc => acc
  | .cons (.mk d cs) rest, acc =>
    if d.hidden then collectBoundsRecursive rest acc
    else
      match itemGeomBounds (.mk d cs) with
      | none => collectBoundsRecursive rest acc
      | some b => collectBoundsRecursive rest (mergeBounds acc b)
end

/-- One step of the `collectBoundsRecursive` loop body, as a function of the
accumulator. -/
def boundsStep (it : Item) (acc : Option Box) : Option Box :=
  if it.data.hidden then acc
  else
    match itemGeomBounds it with
    | none => acc
    | some b => mergeBounds acc b

/-! ## Layers and `getLayerBounds` -/

/-- A document layer: name, visibility flag, and its `pageItems`. -/
structure Layer where
  name : String
  visible : Bool
  items : ItemList
deriving DecidableEq

/-- `getLayerBounds(layer)`: `null` for an empty `pageItems` collection;
otherwise run the accumulation and return `null` when the sentinel survives
(`boundsObj.left === Infinity`), else the `[left, top, right, bottom]` box. -/
def getLayerBounds (layer : Layer) : Option Box :=
  match layer.items with
  | .nil => none
  | .cons _ _ => collectBoundsRecursive layer.items none

/-! Specification-side bounds description (for the refinement claim about
the aggregator): the boxes of the effectively visible leaf items, collected
by recursive descent that does not enter hidden nodes. -/

mutual
/-- Boxes contributed by one item: nothing if it is hidden; the readable
boxes of its subtree's visible leaves if it is a group; its own readable box
otherwise.  Follows the spec's words for the bounds aggregator. -/
def itemVisBoxes : Item → List Box
  | .mk d cs =>
    if d.hidden then []
    else if d.kind = ItemKind.groupItem then listVisBoxes cs
    else
      match d.geom with
      | none => []
      | some b => [b]

/-- Boxes contributed by a collection, in order. -/
def listVisBoxes : ItemList → List Box
  | .nil => []
  | .cons it rest => itemVisBoxes it ++ listVisBoxes rest
end

/-- Union of two boxes (the box-level content of `mergeBounds`). -/
def boxJoin (a b : Box) : Box :=
  ⟨min b.left a.left, max b.top a.top, max b.right a.right, min b.bottom a.bottom⟩

/-! ## Size resolver -/

/-- The four outcomes of resolving a trimmed layer name (the branch at the
top of the per-layer loop of `exportByLayers`). -/
inductive SizeOutcome where
  | mapped (outputName : String) (bleedWidth bleedHeight : ℚ) (templateGroup : Option String)
  | derived (outputName : String) (bleedWidth bleedHeight : ℚ)
  | unknownNumeric
  | notApplicable
deriving DecidableEq, Repr

/-- The size-resolution branch of `exportByLayers`: static table first; then
the `^\d+x\d+$` pattern with `parseFloat(part) + 6` bleed; then the
`^\d+$` skip-with-warning case; otherwise not applicable. -/
def resolveSize (layerName : String) : SizeOutcome :=
  match sizeMapping layerName with
  | some e => .mapped e.sizeGroup e.bleedWidth e.bleedHeight e.templateGroup
  | none =>
    if regexWxH layerName.data then
      let parts := splitOnChar 'x' layerName.data
      .derived layerName ((natOfDigits (parts.getD 0 []) : ℚ) + 6)
        ((natOfDigits (parts.getD 1 []) : ℚ) + 6)
    else if regexAllDigits layerName.data then .unknownNumeric
    else .notApplicable

/-! ## Product type detection -/

/-- The One Touch thickness layer names of `detectProductType`. -/
def oneTouchLayerNames : List String :=
  ["35", "55", "75", "100", "130", "180"]

/-- The regex test `^79x\d+$`. -/
def regex79xN (l : List Char) : Bool :=
  match l with
  | '7' :: '9' :: 'x' :: rest => !rest.isEmpty && rest.all Char.isDigit
  | _ => false

/-- Trim and lower-case a layer name, as the `detectProductType` loop does. -/
def normName (s : String) : String :=
  toLowerStr (trimName s)

/-- Does a normalised layer name indicate the One Touch family? -/
def isOneTouchName (s : String) : Bool :=
  oneTouchLayerNames.contains (normName s) || regex79xN (normName s).data

/-- Does a normalised layer name indicate the Toploader-narrow family? -/
def isNarrowName (s : String) : Bool :=
  normName s == "54x72" || normName s == "toploader-narrow" ||
    normName s == "toploader_narrow"

/-- Does a normalised layer name indicate the Toploader-wide family? -/
def isWideName (s : String) : Bool :=
  normName s == "76x102" || normName s == "64x79" ||
    normName s == "toploader-wide" || normName s == "toploader_wide"

/-- The three detection flags of `detectProductType`. -/
structure FamFlags where
  hasOneTouch : Bool
  hasTopLoaderNarrow : Bool
  hasTopLoaderWide : Bool
deriving DecidableEq, Repr

/-- The scanning loop of `detectProductType` over the document's layer
names. -/
def scanFlags (names : List String) : FamFlags :=
  names.foldl
    (fun f s =>
      { hasOneTouch := f.hasOneTouch || isOneTouchName s,
        hasTopLoaderNarrow := f.hasTopLoaderNarrow || isNarrowName s,
        hasTopLoaderWide := f.hasTopLoaderWide || isWideName s })
    ⟨false, false, false⟩

/-- `detectProductType(doc)` as a function of the document's layer names. -/
def detectProductType (names : List String) : Option String :=
  let f := scanFlags names
  if f.hasTopLoaderNarrow && !f.hasTopLoaderWide && !f.hasOneTouch then
    some "toploader-narrow"
  else if f.hasTopLoaderWide && !f.hasTopLoaderNarrow && !f.hasOneTouch then
    some "toploader-wide"
  else if f.hasOneTouch && !f.hasTopLoaderNarrow && !f.hasTopLoaderWide then
    some "onetouch"
  else none

/-! ## The export orchestrator (`exportByLayers`)

The per-layer loop is a fold over the layer indices carrying the document
state; the host collaborators that do not feed back into the logic are
abstracted: the renderer (`doc.exportFile`, whose outcome the script never
inspects) is a parameter whose status is recorded with each emitted export
request, artboard creation/removal is represented by the recorded request
rectangle, and the success/skip strings pushed into `results` are recorded
as structured `DetailLine`s (host string formatting of numbers is not
modelled).  The final alert when nothing was exported has no effect on
state and is omitted. -/

/-- One line of the per-layer outcome report (`results` array). -/
inductive DetailLine where
  | success (layerName outputName : String) (bleedWidth bleedHeight : ℚ)
  | skippedNotInMapping (layerName : String)
  | skippedEmpty (layerName : String)
deriving DecidableEq, Repr

/-- One render request handed to the export collaborator: the processed
layer's index, the PNG filename, the artboard rectangle, the snapshot of all
layers' `visible` flags at request time, and the collaborator's reported
status (which the script ignores). -/
structure ExportReq where
  layerIdx : Nat
  filename : String
  rect : Box
  visSnapshot : List Bool
  renderStatus : Bool
deriving DecidableEq, Repr

/-- State carried through the per-layer loop. -/
structure LoopState where
  layers : List Layer
  exported : Nat
  hiddenTotal : Nat
  details : List DetailLine
  requests : List ExportReq
deriving DecidableEq

/-- The aggregate result of `exportByLayers`. -/
structure ExportResult where
  layers : List Layer
  exported : Nat
  hiddenItems : Nat
  details : List DetailLine
  requests : List ExportReq
deriving DecidableEq

/-- `doc.layers[j].visible = (j === i)` for every `j`; `j` is the index of
the head of the remaining list. -/
def setVisAux (i : Nat) : Nat → List Layer → List Layer
  | _, [] => []
  | j, l :: ls => { l with visible := decide (j = i) } :: setVisAux i (j + 1) ls

/-- Replace the `pageItems` of the layer at index `i`. -/
def setItemsAt : List Layer → Nat → ItemList → List Layer
  | [], _, _ => []
  | l :: ls, 0, t => { l with items := t } :: ls
  | l :: ls, n + 1, t => l :: setItemsAt ls n t

/-- The body of the per-layer loop after a successful size resolution:
make layer `i` the only visible layer, run the hide traversal, compute the
content bounds; on empty bounds restore and record the skip, otherwise emit
the render request for the bleed-sized artboard centred on the content and
then restore the hidden items. -/
def exportOne (render : Nat → String → Box → Bool) (st : LoopState) (i : Nat)
    (layer : Layer) (layerName outputName : String) (bw bh : ℚ) : LoopState :=
  let vis := setVisAux i 0 st.layers
  let hr := hideAllCutContourItems layer.items
  let layers2 := setItemsAt vis i hr.1
  let hiddenTotal2 := st.hiddenTotal + hr.2.length
  match getLayerBounds { layer with items := hr.1 } with
  | none =>
    { layers := setItemsAt layers2 i (restoreItems hr.2 hr.1),
      exported := st.exported,
      hiddenTotal := hiddenTotal2,
      details := st.details ++ [DetailLine.skippedEmpty layerName],
      requests := st.requests }
  | some cb =>
    let cX := (cb.left + cb.right) / 2
    let cY := (cb.top + cb.bottom) / 2
    let rect : Box := ⟨cX - bw / 2, cY + bh / 2, cX + bw / 2, cY - bh / 2⟩
    let fname := outputName ++ ".png"
    let req : ExportReq :=
      ⟨i, fname, rect, layers2.map (fun l => l.visible), render i fname rect⟩
    { layers := setItemsAt layers2 i (restoreItems hr.2 hr.1),
      exported := st.exported + 1,
      hiddenTotal := hiddenTotal2,
      details := st.details ++ [DetailLine.success layerName outputName bw bh],
      requests := st.requests ++ [req] }

/-- One iteration of the per-layer loop: trim the layer's name, resolve its
size, and either record a skip, do nothing (name not applicable), or export. -/
def stepLayer (render : Nat → String → Box → Bool) (st : LoopState) (i : Nat) :
    LoopState :=
  match st.layers[i]? with
  | none => st
  | some layer =>
    let layerName := trimName layer.name
    match resolveSize layerName with
    | .unknownNumeric =>
      { st with details := st.details ++ [DetailLine.skippedNotInMapping layerName] }
    | .notApplicable => st
    | .mapped outputName bw bh _ => exportOne render st i layer layerName outputName bw bh
    | .derived outputName bw bh => exportOne render st i layer layerName outputName bw bh

/-- `exportByLayers(doc, ...)`: record the original layer visibilities, run
the per-layer loop over all layer indices, then restore every layer's
original visibility. -/
def exportByLayers (render : Nat → String → Box → Bool)
    (layers0 : List Layer) : ExportResult :=
  let originalVisibility := layers0.map (fun l => l.visible)
  let st := (List.range layers0.length).foldl (stepLayer render)
    ⟨layers0, 0, 0, [], []⟩
  { layers := List.zipWith (fun l v => { l with visible := v }) st.layers originalVisibility,
    exported := st.exported,
    hiddenItems := st.hiddenTotal,
    details := st.details,
    requests := st.requests }

/-! ## Concrete items, layers and invariants used by the theorems -/

/-- An item named `CutContour_35`. -/
def dCutContour35 : ItemData :=
  ⟨1, "CutContour_35", false, ItemKind.pathItem, false, none, false, none, none⟩

/-- An unnamed path filled with the spot color `Die Line`. -/
def dDieLinePath : ItemData :=
  ⟨2, "", false, ItemKind.pathItem, false, none, true,
    some (ColorRead.spotNamed "Die Line"), none⟩

/-- A path stroked with the spot color `Background`, name matching nothing. -/
def dBackgroundPath : ItemData :=
  ⟨3, "shape", false, ItemKind.pathItem, true,
    some (ColorRead.spotNamed "Background"), false, none, none⟩

/-- A hidden group with a contour-named child, for the C9 witness. -/
def hiddenGroup : Item :=
  Item.mk ⟨5, "assets", true, ItemKind.groupItem, false, none, false, none, none⟩
    (ItemList.cons
      (Item.mk ⟨6, "dieline", false, ItemKind.pathItem, false, none, false, none, none⟩
        ItemList.nil)
      ItemList.nil)

/-- The contour-classified child of `contourGroup`. -/
def contourChildData : ItemData :=
  ⟨2, "dieline", false, ItemKind.pathItem, false, none, false, none, none⟩

/-- A visible group whose own name matches a contour pattern and whose only
child is itself contour-classified. -/
def contourGroup : Item :=
  Item.mk ⟨1, "CutContour Group", false, ItemKind.groupItem, false, none, false, none, none⟩
    (ItemList.cons (Item.mk contourChildData ItemList.nil) ItemList.nil)

/-- A visible group that is not contour-classified, holding one
contour-named child, for the C3 witness. -/
def plainGroup : Item :=
  Item.mk ⟨7, "artwork", false, ItemKind.groupItem, false, none, false, none, none⟩
    (ItemList.cons (Item.mk ⟨8, "perf line", false, ItemKind.pathItem, false, none,
      false, none, none⟩ ItemList.nil) ItemList.nil)

/-- A small mixed tree for the C2 witness: a contour-named path, a plain
group containing a contour child and an already-hidden path. -/
def mixedItems : ItemList :=
  ItemList.cons
    (Item.mk ⟨11, "Kiss Cut guide", false, ItemKind.pathItem, false, none, false, none, none⟩
      ItemList.nil)
    (ItemList.cons
      (Item.mk ⟨12, "art", false, ItemKind.groupItem, false, none, false, none, none⟩
        (ItemList.cons
          (Item.mk ⟨13, "", false, ItemKind.pathItem, true,
            some (ColorRead.spotNamed "CutContour"), false, none, none⟩ ItemList.nil)
          (ItemList.cons
            (Item.mk ⟨14, "backdrop", true, ItemKind.pathItem, false, none, false, none, none⟩
              ItemList.nil)
            ItemList.nil)))
      ItemList.nil)

/-- A layer holding a single visible path item, for the C6 witness. -/
def singleItemLayer : Layer :=
  ⟨"35", true,
    ItemList.cons
      (Item.mk ⟨21, "", false, ItemKind.pathItem, false, none, false, none,
        some ⟨1, 9, 7, 2⟩⟩ ItemList.nil)
      ItemList.nil⟩

/-- A visible path whose stroke is a spot color with an unreadable name. -/
def dFaultPath : ItemData :=
  ⟨30, "mark", false, ItemKind.pathItem, true, some ColorRead.spotFault,
    false, none, none⟩

/-- The expected pattern of `visible` flags while layer `i` is being
exported: position `j` (counting from `j₀`) holds `true` exactly at `i`. -/
def indicatorFrom (i j : Nat) : Nat → List Bool
  | 0 => []
  | n + 1 => decide (j = i) :: indicatorFrom i (j + 1) n

/-- The invariant the per-layer loop keeps: the layer count never changes,
and every emitted request was emitted with exactly its own layer visible. -/
def VisInv (n : Nat) (st : LoopState) : Prop :=
  st.layers.length = n ∧
  ∀ r ∈ st.requests, r.layerIdx < n ∧ r.visSnapshot = indicatorFrom r.layerIdx 0 n

/-- A visible leaf path item with readable geometry and no contour marks. -/
def plainLeaf (n : Nat) (b : Box) : Item :=
  Item.mk ⟨n, "", false, ItemKind.pathItem, false, none, false, none, some b⟩ ItemList.nil

/-- The document of the end-to-end claim: layers `"35"`, `"999"` (unmapped
numeric), `"abc"` (unrecognised), `"54x72"`, the first and last with one
visible item each. -/
def demoLayers : List Layer :=
  [⟨"35", true, ItemList.cons (plainLeaf 10 ⟨0, 10, 10, 0⟩) ItemList.nil⟩,
   ⟨"999", false, ItemList.nil⟩,
   ⟨"abc", true, ItemList.nil⟩,
   ⟨"54x72", true, ItemList.cons (plainLeaf 20 ⟨0, 20, 12, 0⟩) ItemList.nil⟩]

/-- A render collaborator that always reports success. -/
def renderOk : Nat → String → Box → Bool := fun _ _ _ => true

/-- The first render request the demo run emits (for layer `"35"`, content
centred at `(5, 5)`). -/
def demoReq : ExportReq :=
  ⟨0, "79x90.png", ⟨5 - 85.04 / 2, 5 + 95.67 / 2, 5 + 85.04 / 2, 5 - 95.67 / 2⟩,
   [true, false, false, false], true⟩

/-! ## Helper lemmas on the character-level operations -/

/-- A combined structural induction principle for `Item` and `ItemList`. -/
theorem item_mutual_ind {P : Item → Prop} {Q : ItemList → Prop}
    (hmk : ∀ d cs, Q cs → P (Item.mk d cs))
    (hnil : Q ItemList.nil)
    (hcons : ∀ it rest, P it → Q rest → Q (ItemList.cons it rest)) :
    (∀ it, P it) ∧ (∀ l, Q l) :=
  ⟨fun it => @Item.rec P Q hmk hnil hcons it,
   fun l => @ItemList.rec P Q hmk hnil hcons l⟩


theorem takeWhile_all_append {α : Type} {p : α → Bool} (l : List α) (c : α)
    (r : List α) (hl : ∀ a ∈ l, p a = true) (hc : p c = false) :
    (l ++ c :: r).takeWhile p = l := by
  induction l with
  | nil => simp [List.takeWhile_cons, hc]
  | cons a t ih =>
    have ha : p a = true := hl a (by simp)
    simp only [List.cons_append, List.takeWhile_cons, ha, if_true]
    rw [ih fun x hx => hl x (by simp [hx])]

theorem dropWhile_all_append {α : Type} {p : α → Bool} (l : List α) (c : α)
    (r : List α) (hl : ∀ a ∈ l, p a = true) (hc : p c = false) :
    (l ++ c :: r).dropWhile p = c :: r := by
  induction l with
  | nil => simp [List.dropWhile_cons, hc]
  | cons a t ih =>
    have ha : p a = true := hl a (by simp)
    simp only [List.cons_append, List.dropWhile_cons, ha, if_true]
    exact ih fun x hx => hl x (by simp [hx])

theorem splitOnChar_not_mem {c : Char} {l : List Char} (h : c ∉ l) :
    splitOnChar c l = [l] := by
  induction l with
  | nil => rfl
  | cons a t ih =>
    have hac : (a == c) = false := by
      simp only [beq_eq_false_iff_ne]
      intro e; exact h (by simp [e])
    have ht := ih (fun hm => h (by simp [hm]))
    simp [splitOnChar, hac, ht]

theorem splitOnChar_append {c : Char} {d1 d2 : List Char} (h1 : c ∉ d1) :
    splitOnChar c (d1 ++ c :: d2) = d1 :: splitOnChar c d2 := by
  induction d1 with
  | nil => simp [splitOnChar]
  | cons a t ih =>
    have hac : (a == c) = false := by
      simp only [beq_eq_false_iff_ne]
      intro e; exact h1 (by simp [e])
    have ht := ih (fun hm => h1 (by simp [hm]))
    simp [splitOnChar, hac, ht]

theorem not_x_of_digit {l : List Char} (h : l.all Char.isDigit = true) : 'x' ∉ l := by
  intro hm
  have := List.all_eq_true.1 h 'x' hm
  simp [Char.isDigit] at this

theorem regexWxH_append {d1 d2 : List Char} (h1 : d1 ≠ []) (h2 : d2 ≠ [])
    (ha : d1.all Char.isDigit = true) (hb : d2.all Char.isDigit = true) :
    regexWxH (d1 ++ 'x' :: d2) = true := by
  have hx : Char.isDigit 'x' = false := by decide
  have htake := takeWhile_all_append d1 'x' d2 (fun a h => List.all_eq_true.1 ha a h) hx
  have hdrop := dropWhile_all_append d1 'x' d2 (fun a h => List.all_eq_true.1 ha a h) hx
  simp [regexWxH, List.span_eq_take_drop, htake, hdrop, h1, h2, hb, List.isEmpty_iff]

/-! ## C4 — the size resolver -/

/-- C4: for every trimmed layer name that is a key of the static size table,
the resolver returns exactly that table entry (even when the name also
matches the `WxH` pattern: `"54x72"` resolves to bleed `57×75`, not the
derived `60×78`); and for every name of shape `digits ++ "x" ++ digits` that
the table does not contain, the resolver derives the output identifier from
the literal name with bleed `width+6 × height+6`. -/
theorem resolveSize_spec :
    (∀ name e, sizeMapping name = some e →
      resolveSize name = SizeOutcome.mapped e.sizeGroup e.bleedWidth e.bleedHeight e.templateGroup) ∧
    (resolveSize "54x72" = SizeOutcome.mapped "54x72" 57 75 (some "Top Loader") ∧
      regexWxH "54x72".data = true ∧
      resolveSize "54x72" ≠ SizeOutcome.derived "54x72" 60 78) ∧
    (∀ d1 d2 : List Char, d1 ≠ [] → d2 ≠ [] →
      d1.all Char.isDigit = true → d2.all Char.isDigit = true →
      sizeMapping (String.mk (d1 ++ 'x' :: d2)) = none →
      resolveSize (String.mk (d1 ++ 'x' :: d2)) =
        SizeOutcome.derived (String.mk (d1 ++ 'x' :: d2))
          ((natOfDigits d1 : ℚ) + 6) ((natOfDigits d2 : ℚ) + 6)) := by
  refine ⟨?_, ⟨?_, ?_, ?_⟩, ?_⟩
  · intro name e h
    simp [resolveSize, h]
  · simp [resolveSize, sizeMapping]
  · decide
  · simp [resolveSize, sizeMapping]
  · intro d1 d2 h1 h2 ha hb hmap
    have hWxH := regexWxH_append h1 h2 ha hb
    have hsplit : splitOnChar 'x' (d1 ++ 'x' :: d2) = [d1, d2] := by
      rw [splitOnChar_append (not_x_of_digit ha), splitOnChar_not_mem (not_x_of_digit hb)]
    simp [resolveSize, hmap, hWxH, hsplit]

/-- Witness for C4: the table key `"64x79"` resolves to its entry, and the
non-key `"12x34"` resolves to the derived `18×40` bleed. -/
theorem resolveSize_spec_witness :
    sizeMapping "64x79" = some ⟨"64x79", 67, 82, some "Top Loader"⟩ ∧
    resolveSize "64x79" = SizeOutcome.mapped "64x79" 67 82 (some "Top Loader") ∧
    sizeMapping (String.mk (['1', '2'] ++ 'x' :: ['3', '4'])) = none ∧
    resolveSize (String.mk (['1', '2'] ++ 'x' :: ['3', '4'])) =
      SizeOutcome.derived (String.mk (['1', '2'] ++ 'x' :: ['3', '4']))
        ((natOfDigits ['1', '2'] : ℚ) + 6) ((natOfDigits ['3', '4'] : ℚ) + 6) := by
  have hmap : sizeMapping "64x79" = some ⟨"64x79", 67, 82, some "Top Loader"⟩ := by
    simp [sizeMapping]
  have hmap2 : sizeMapping (String.mk (['1', '2'] ++ 'x' :: ['3', '4'])) = none := by
    simp [sizeMapping]
  exact ⟨hmap, resolveSize_spec.1 "64x79" ⟨"64x79", 67, 82, some "Top Loader"⟩ hmap,
    hmap2,
    resolveSize_spec.2.2 ['1', '2'] ['3', '4'] (by decide) (by decide)
      (by decide) (by decide) hmap2⟩

/-! ## C7 — classifier examples -/

/-- C7: the cut-contour classifier accepts an item named `"CutContour_35"`,
accepts an unnamed path filled with the spot color `"Die Line"`, and rejects
a path whose only spot color is `"Background"` and whose name matches no
pattern. -/
theorem shouldHideItem_examples :
    shouldHideItem dCutContour35 = true ∧
    shouldHideItem dDieLinePath = true ∧
    shouldHideItem dBackgroundPath = false := by decide

/-! ## C10 — product type detection -/

theorem scanFlags_aux (names : List String) :
    ∀ f : FamFlags,
      names.foldl
        (fun f s =>
          { hasOneTouch := f.hasOneTouch || isOneTouchName s,
            hasTopLoaderNarrow := f.hasTopLoaderNarrow || isNarrowName s,
            hasTopLoaderWide := f.hasTopLoaderWide || isWideName s })
        f =
      ⟨f.hasOneTouch || names.any isOneTouchName,
       f.hasTopLoaderNarrow || names.any isNarrowName,
       f.hasTopLoaderWide || names.any isWideName⟩ := by
  induction names with
  | nil => intro f; simp
  | cons s rest ih =>
    intro f
    rw [List.foldl_cons, ih]
    simp [Bool.or_assoc]

theorem scanFlags_eq_any (names : List String) :
    scanFlags names =
      ⟨names.any isOneTouchName, names.any isNarrowName, names.any isWideName⟩ := by
  have h := scanFlags_aux names ⟨false, false, false⟩
  simpa [scanFlags] using h

/-- C10: `detectProductType` returns a product type exactly under mutual
exclusivity of the three layer-name families (no priority): each non-null
answer requires its own family to occur among the trimmed, lower-cased layer
names and both other families to be absent, and the answer is `null` exactly
when no family matches or two or more families co-occur. -/
theorem detectProductType_mutual_exclusive (names : List String) :
    (detectProductType names = some "toploader-narrow" ↔
      (names.any isNarrowName = true ∧ names.any isWideName = false ∧
        names.any isOneTouchName = false)) ∧
    (detectProductType names = some "toploader-wide" ↔
      (names.any isWideName = true ∧ names.any isNarrowName = false ∧
        names.any isOneTouchName = false)) ∧
    (detectProductType names = some "onetouch" ↔
      (names.any isOneTouchName = true ∧ names.any isNarrowName = false ∧
        names.any isWideName = false)) ∧
    (detectProductType names = none ↔
      ¬((names.any isNarrowName = true ∧ names.any isWideName = false ∧
          names.any isOneTouchName = false) ∨
        (names.any isWideName = true ∧ names.any isNarrowName = false ∧
          names.any isOneTouchName = false) ∨
        (names.any isOneTouchName = true ∧ names.any isNarrowName = false ∧
          names.any isWideName = false))) := by
  simp only [detectProductType, scanFlags_eq_any]
  cases h1 : names.any isOneTouchName <;>
    cases h2 : names.any isNarrowName <;>
      cases h3 : names.any isWideName <;> simp

/-! ## C9 — already-hidden items are skipped whole -/

/-- C9: when the hide traversal reaches an item that is already hidden, the
item is left untouched, nothing is appended to the ledger for it or for
anything inside it (no recursion into its children), and the traversal
continues with the remaining items. -/
theorem hidden_item_skipped (d : ItemData) (cs rest : ItemList)
    (h : d.hidden = true) :
    hideAllCutContourItems (ItemList.cons (Item.mk d cs) rest) =
      (ItemList.cons (Item.mk d cs) (hideAllCutContourItems rest).1,
        (hideAllCutContourItems rest).2) := by
  simp [hideAllCutContourItems, hideList, hideItem, h]

/-- Witness for C9: a concrete already-hidden group is skipped whole: the
traversal of the singleton collection does not touch it and its ledger is
empty. -/
theorem hidden_item_skipped_witness :
    hiddenGroup.data.hidden = true ∧
    hideAllCutContourItems (ItemList.cons hiddenGroup ItemList.nil) =
      (ItemList.cons hiddenGroup (hideAllCutContourItems ItemList.nil).1,
        (hideAllCutContourItems ItemList.nil).2) :=
  ⟨rfl, hidden_item_skipped hiddenGroup.data hiddenGroup.children ItemList.nil rfl⟩

/-! ## C3 — children of a name-hidden group are not discovered -/

/-- Counterexample to C3: `contourGroup` is not already hidden and is hidden
by the name rule, its child is contour-classified, yet after the traversal
the ledger holds only the group's id — the child was never discovered or
recorded (its hidden flag is still `false` inside the hidden group). -/
theorem contour_child_not_discovered :
    contourGroup.data.hidden = false ∧
    shouldHideItem contourGroup.data = true ∧
    shouldHideItem contourChildData = true ∧
    (hideAllCutContourItems (ItemList.cons contourGroup ItemList.nil)).2 = [1] ∧
    contourChildData.id ∉ (hideAllCutContourItems (ItemList.cons contourGroup ItemList.nil)).2 ∧
    listFlags (hideAllCutContourItems (ItemList.cons contourGroup ItemList.nil)).1 =
      [(1, true), (2, false)] := by decide

/-- C3 (amended): children of a visible group are evaluated by recursive
descent only when the group itself is not classified as contour; a group the
traversal hides by the name rule is recorded alone and its children are not
recursed into. -/
theorem hide_group_recursion (d : ItemData) (cs rest : ItemList)
    (hHid : d.hidden = false) :
    (shouldHideItem d = true →
      hideAllCutContourItems (ItemList.cons (Item.mk d cs) rest) =
        (ItemList.cons (Item.mk { d with hidden := true } cs)
            (hideAllCutContourItems rest).1,
          d.id :: (hideAllCutContourItems rest).2)) ∧
    (shouldHideItem d = false → d.kind = ItemKind.groupItem →
      hideAllCutContourItems (ItemList.cons (Item.mk d cs) rest) =
        (ItemList.cons (Item.mk d (hideAllCutContourItems cs).1)
            (hideAllCutContourItems rest).1,
          (hideAllCutContourItems cs).2 ++ (hideAllCutContourItems rest).2)) := by
  constructor
  · intro hs
    simp [hideAllCutContourItems, hideList, hideItem, hHid, hs]
  · intro hs hk
    simp [hideAllCutContourItems, hideList, hideItem, hHid, hs, hk]

/-- Witness for the amended C3, exercising both branches: the name-hidden
`contourGroup` is recorded alone with untouched children, and the
non-contour `plainGroup` is recursed into, discovering its contour child. -/
theorem hide_group_recursion_witness :
    (contourGroup.data.hidden = false ∧ shouldHideItem contourGroup.data = true ∧
      hideAllCutContourItems (ItemList.cons contourGroup ItemList.nil) =
        (ItemList.cons (Item.mk { contourGroup.data with hidden := true }
            contourGroup.children) (hideAllCutContourItems ItemList.nil).1,
          contourGroup.data.id :: (hideAllCutContourItems ItemList.nil).2)) ∧
    (plainGroup.data.hidden = false ∧ shouldHideItem plainGroup.data = false ∧
      plainGroup.data.kind = ItemKind.groupItem ∧
      hideAllCutContourItems (ItemList.cons plainGroup ItemList.nil) =
        (ItemList.cons (Item.mk plainGroup.data
            (hideAllCutContourItems plainGroup.children).1)
            (hideAllCutContourItems ItemList.nil).1,
          (hideAllCutContourItems plainGroup.children).2 ++
            (hideAllCutContourItems ItemList.nil).2)) :=
  ⟨⟨rfl, by decide,
    (hide_group_recursion contourGroup.data contourGroup.children ItemList.nil rfl).1
      (by decide)⟩,
   ⟨rfl, by decide, rfl,
    (hide_group_recursion plainGroup.data plainGroup.children ItemList.nil rfl).2
      (by decide) rfl⟩⟩

/-! ## C2 — hide-then-restore round trip -/

theorem restore_not_mem_all :
    (∀ it, ∀ M : List Nat, (∀ x ∈ itemIds it, x ∉ M) → restoreItem M it = it) ∧
    (∀ l, ∀ M : List Nat, (∀ x ∈ listIds l, x ∉ M) → restoreList M l = l) := by
  refine item_mutual_ind ?_ ?_ ?_
  · intro d cs ih M h
    have hid : d.id ∉ M := h d.id (by simp [itemIds])
    have hcs : restoreList M cs = cs :=
      ih M fun x hx => h x (by simp [itemIds, hx])
    simp [restoreItem, hid, hcs]
  · intro M _
    rfl
  · intro it rest ihit ihrest M h
    have h1 : restoreItem M it = it :=
      ihit M fun x hx => h x (by simp [listIds, hx])
    have h2 : restoreList M rest = rest :=
      ihrest M fun x hx => h x (by simp [listIds, hx])
    simp [restoreList, h1, h2]

theorem hide_ids_all :
    (∀ it, itemIds (hideItem it).1 = itemIds it ∧
      ∀ x ∈ (hideItem it).2, x ∈ itemIds it) ∧
    (∀ l, listIds (hideList l).1 = listIds l ∧
      ∀ x ∈ (hideList l).2, x ∈ listIds l) := by
  refine item_mutual_ind ?_ ?_ ?_
  · intro d cs ih
    by_cases hh : d.hidden
    · simp [hideItem, hh]
    · by_cases hs : shouldHideItem d
      · simp [hideItem, hh, hs, itemIds]
      · by_cases hk : d.kind = ItemKind.groupItem
        · constructor
          · simp [hideItem, hh, hs, hk, itemIds, ih.1]
          · intro x hx
            simp only [hideItem, hh, hs, hk] at hx
            simp only [if_neg, if_false, Bool.false_eq_true, ite_false] at hx
            simp [itemIds]
            right
            exact ih.2 x (by simpa using hx)
        · simp [hideItem, hh, hs, hk]
  · simp [hideList]
  · intro it rest ihit ihrest
    constructor
    · simp [hideList, listIds, ihit.1, ihrest.1]
    · intro x hx
      simp only [hideList, List.mem_append] at hx
      rcases hx with hx | hx
      · exact List.mem_append_left _ (ihit.2 x hx)
      · exact List.mem_append_right _ (ihrest.2 x hx)

theorem hide_restore_all :
    (∀ it, (itemIds it).Nodup → ∀ M : List Nat,
      (∀ x ∈ itemIds it, (x ∈ M ↔ x ∈ (hideItem it).2)) →
      restoreItem M (hideItem it).1 = it) ∧
    (∀ l, (listIds l).Nodup → ∀ M : List Nat,
      (∀ x ∈ listIds l, (x ∈ M ↔ x ∈ (hideList l).2)) →
      restoreList M (hideList l).1 = l) := by
  refine item_mutual_ind ?_ ?_ ?_
  · intro d cs ih hnd M hM
    have hhead : d.id ∈ itemIds (Item.mk d cs) := by simp [itemIds]
    have hnd' : d.id ∉ listIds cs ∧ (listIds cs).Nodup := by
      simpa [itemIds, List.nodup_cons] using hnd
    by_cases hh : d.hidden
    · have : ∀ x ∈ itemIds (Item.mk d cs), x ∉ M := by
        intro x hx
        have := hM x hx
        simp [hideItem, hh] at this
        exact this
      simp only [hideItem, hh, if_true]
      exact restore_not_mem_all.1 _ M this
    · by_cases hs : shouldHideItem d
      · have hdM : d.id ∈ M := by
          have := hM d.id hhead
          simp [hideItem, hh, hs] at this
          exact this
        have hcs : restoreList M cs = cs := by
          apply restore_not_mem_all.2
          intro x hx hxM
          have := (hM x (by simp [itemIds, hx])).1 hxM
          simp [hideItem, hh, hs] at this
          exact hnd'.1 (this ▸ hx)
        have hhf : d.hidden = false := by simpa using hh
        simp only [hideItem, hh, hs, if_true, if_false, Bool.false_eq_true, ite_false,
          ite_true, restoreItem]
        simp [hdM, hcs]
        cases d
        simp_all
      · by_cases hk : d.kind = ItemKind.groupItem
        · have hled : ∀ x ∈ (hideList cs).2, x ∈ listIds cs := hide_ids_all.2 cs |>.2
          have hdM : d.id ∉ M := by
            intro hm
            have := (hM d.id hhead).1 hm
            simp [hideItem, hh, hs, hk] at this
            exact hnd'.1 (hled d.id this)
          have hcs : restoreList M (hideList cs).1 = cs := by
            apply ih hnd'.2 M
            intro x hx
            have := hM x (by simp [itemIds, hx])
            simpa [hideItem, hh, hs, hk] using this
          simp only [hideItem, hh, hs, hk, if_true, if_false, Bool.false_eq_true,
            ite_false, ite_true, restoreItem]
          simp [hdM, hcs]
        · have : ∀ x ∈ itemIds (Item.mk d cs), x ∉ M := by
            intro x hx
            have := hM x hx
            simp [hideItem, hh, hs, hk] at this
            exact this
          simp only [hideItem, hh, hs, hk, if_false, Bool.false_eq_true, ite_false]
          exact restore_not_mem_all.1 _ M this
  · intro _ M _
    rfl
  · intro it rest ihit ihrest hnd M hM
    have hnd' := List.nodup_append.1 (by simpa [listIds] using hnd)
    have hdisj : ∀ x ∈ itemIds it, x ∉ listIds rest := fun x hx hx' =>
      hnd'.2.2 hx hx'
    have hsub1 : ∀ x ∈ (hideItem it).2, x ∈ itemIds it := (hide_ids_all.1 it).2
    have hsub2 : ∀ x ∈ (hideList rest).2, x ∈ listIds rest := (hide_ids_all.2 rest).2
    have h1 : restoreItem M (hideItem it).1 = it := by
      apply ihit hnd'.1 M
      intro x hx
      have := hM x (by simp [listIds, hx])
      simp only [hideList, List.mem_append] at this
      constructor
      · intro hm
        rcases this.1 hm with h | h
        · exact h
        · exact absurd (hsub2 x h) (hdisj x hx)
      · intro hm
        exact this.2 (Or.inl hm)
    have h2 : restoreList M (hideList rest).1 = rest := by
      apply ihrest hnd'.2.1 M
      intro x hx
      have hxnotit : x ∉ itemIds it := fun hx' => hnd'.2.2 hx' hx
      have := hM x (by simp [listIds, hx])
      simp only [hideList, List.mem_append] at this
      constructor
      · intro hm
        rcases this.1 hm with h | h
        · exact absurd (hsub1 x h) hxnotit
        · exact h
      · intro hm
        exact this.2 (Or.inr hm)
    simp [hideList, restoreList, h1, h2]

/-- C2: for every item tree with distinct item identities, running the hide
traversal and then restoring every entry of the ledger it produced returns
the tree to exactly its pre-traversal state — in particular every item's
hidden flag equals its original value. -/
theorem hide_then_restore_roundtrip (items : ItemList)
    (hnd : (listIds items).Nodup) :
    restoreItems (hideAllCutContourItems items).2 (hideAllCutContourItems items).1 =
      items := by
  exact hide_restore_all.2 items hnd (hideAllCutContourItems items).2
    fun x _ => Iff.rfl

/-- Witness for C2 at a concrete tree with distinct ids. -/
theorem hide_then_restore_roundtrip_witness :
    (listIds mixedItems).Nodup ∧
    restoreItems (hideAllCutContourItems mixedItems).2
      (hideAllCutContourItems mixedItems).1 = mixedItems :=
  ⟨by decide, hide_then_restore_roundtrip mixedItems (by decide)⟩

/-! ## C6 — bounds aggregation -/

theorem boxJoin_assoc (a b c : Box) :
    boxJoin (boxJoin a b) c = boxJoin a (boxJoin b c) := by
  simp [boxJoin, Box.mk.injEq, min_assoc, max_assoc]

theorem mergeBounds_mergeBounds (acc : Option Box) (b u : Box) :
    mergeBounds (mergeBounds acc b) u = mergeBounds acc (boxJoin b u) := by
  cases acc with
  | none => rfl
  | some a =>
    show some (boxJoin (boxJoin a b) u) = some (boxJoin a (boxJoin b u))
    rw [boxJoin_assoc]

theorem mergeBounds_some (acc : Option Box) (b : Box) :
    mergeBounds acc b =
      some (match acc with | none => b | some a => boxJoin a b) := by
  cases acc <;> simp [mergeBounds, boxJoin]

theorem foldl_mergeBounds_opt (bs : List Box) :
    ∀ acc : Option Box,
      bs.foldl mergeBounds acc =
        match bs.foldl mergeBounds none with
        | none => acc
        | some u => mergeBounds acc u := by
  induction bs with
  | nil => intro acc; rfl
  | cons b bs ih =>
    intro acc
    rw [List.foldl_cons, List.foldl_cons, ih (mergeBounds acc b),
      ih (mergeBounds none b)]
    cases h : bs.foldl mergeBounds none with
    | none => simp [mergeBounds]
    | some u =>
      simp only [mergeBounds_mergeBounds]
      cases acc <;> simp [mergeBounds]

theorem foldl_mergeBounds_ne_none (bs : List Box) (a : Box) :
    bs.foldl mergeBounds (some a) ≠ none := by
  rw [foldl_mergeBounds_opt]
  cases h : bs.foldl mergeBounds none with
  | none => simp
  | some u => simp [mergeBounds_some]

theorem collect_cons (it : Item) (rest : ItemList) (acc : Option Box) :
    collectBoundsRecursive (ItemList.cons it rest) acc =
      collectBoundsRecursive rest (boundsStep it acc) := by
  cases it with
  | mk d cs =>
    by_cases hh : d.hidden
    · simp [collectBoundsRecursive, boundsStep, Item.data, hh]
    · cases hg : itemGeomBounds (Item.mk d cs) <;>
        simp [collectBoundsRecursive, boundsStep, Item.data, hh, hg]

theorem bounds_refines_all :
    (∀ it, ∀ acc : Option Box,
      boundsStep it acc = (itemVisBoxes it).foldl mergeBounds acc) ∧
    (∀ l, ∀ acc : Option Box,
      collectBoundsRecursive l acc = (listVisBoxes l).foldl mergeBounds acc) := by
  refine item_mutual_ind ?_ ?_ ?_
  · intro d cs ih acc
    by_cases hh : d.hidden
    · simp [boundsStep, Item.data, itemVisBoxes, hh]
    · by_cases hk : d.kind = ItemKind.groupItem
      · have hg : itemGeomBounds (Item.mk d cs) =
            (listVisBoxes cs).foldl mergeBounds none := by
          simp [itemGeomBounds, hk, ih none]
        simp only [boundsStep, Item.data, hh, Bool.false_eq_true, ite_false, hg,
          itemVisBoxes, hk, if_true]
        conv_rhs => rw [foldl_mergeBounds_opt]
      · cases hgeo : d.geom with
        | none => simp [boundsStep, Item.data, itemGeomBounds, itemVisBoxes, hh, hk, hgeo]
        | some b => simp [boundsStep, Item.data, itemGeomBounds, itemVisBoxes, hh, hk, hgeo]
  · intro acc
    rfl
  · intro it rest ihit ihrest acc
    rw [collect_cons, ihrest, ihit]
    simp [listVisBoxes, List.foldl_append]

theorem foldl_mergeBounds_vertical (bs : List Box) :
    ∀ (acc : Option Box) (u : Box),
      (∀ c ∈ bs, c.bottom ≤ c.top) →
      (∀ a, acc = some a → a.bottom ≤ a.top) →
      bs.foldl mergeBounds acc = some u → u.bottom ≤ u.top := by
  induction bs with
  | nil =>
    intro acc u _ hacc h
    exact hacc u h
  | cons b bs ih =>
    intro acc u hbs hacc h
    apply ih (mergeBounds acc b) u (fun c hc => hbs c (by simp [hc])) _ (by simpa using h)
    intro a ha
    have hb : b.bottom ≤ b.top := hbs b (by simp)
    cases acc with
    | none =>
      simp [mergeBounds] at ha
      exact ha ▸ hb
    | some a0 =>
      simp [mergeBounds] at ha
      subst ha
      calc min b.bottom a0.bottom ≤ b.bottom := min_le_left _ _
        _ ≤ b.top := hb
        _ ≤ max b.top a0.top := le_max_left _ _

/-- C6: `getLayerBounds` returns exactly the coordinate-wise union of the
boxes of the layer's effectively visible leaf items (collected by recursive
descent that skips hidden nodes): folded with the min/max union starting
from the empty sentinel; it is the distinct empty result (`none`, never a
zero-size box) exactly when no item contributes; a layer whose only item is
one visible leaf with readable geometry yields exactly that leaf's own box;
and the union keeps the vertical convention `bottom ≤ top` whenever every
contributing box satisfies it. -/
theorem getLayerBounds_spec (layer : Layer) :
    getLayerBounds layer = (listVisBoxes layer.items).foldl mergeBounds none ∧
    (getLayerBounds layer = none ↔ listVisBoxes layer.items = []) ∧
    (∀ d b, layer.items = ItemList.cons (Item.mk d ItemList.nil) ItemList.nil →
      d.hidden = false → d.kind ≠ ItemKind.groupItem → d.geom = some b →
      getLayerBounds layer = some b) ∧
    (∀ u, (∀ c ∈ listVisBoxes layer.items, c.bottom ≤ c.top) →
      getLayerBounds layer = some u → u.bottom ≤ u.top) := by
  have hmain : getLayerBounds layer = (listVisBoxes layer.items).foldl mergeBounds none := by
    cases hit : layer.items with
    | nil => simp [getLayerBounds, hit, listVisBoxes]
    | cons it rest =>
      simp only [getLayerBounds, hit]
      exact bounds_refines_all.2 (ItemList.cons it rest) none
  refine ⟨hmain, ?_, ?_, ?_⟩
  · rw [hmain]
    cases hbs : listVisBoxes layer.items with
    | nil => simp
    | cons b bs =>
      simp only [List.foldl_cons]
      have : mergeBounds none b = some b := rfl
      rw [this]
      simpa using foldl_mergeBounds_ne_none bs b
  · intro d b hit hh hk hgeo
    rw [hmain, hit]
    simp [listVisBoxes, itemVisBoxes, hh, hk, hgeo, mergeBounds]
  · intro u hc h
    exact foldl_mergeBounds_vertical (listVisBoxes layer.items) none u hc
      (by intro a ha; cases ha) (hmain ▸ h)

/-- Witness for C6: on `singleItemLayer` the aggregator returns exactly the
single item's own box, which satisfies the vertical convention. -/
theorem getLayerBounds_spec_witness :
    getLayerBounds singleItemLayer = some ⟨1, 9, 7, 2⟩ ∧
    (getLayerBounds singleItemLayer = none ↔ listVisBoxes singleItemLayer.items = []) ∧
    ((2 : ℚ) ≤ 9) := by
  refine ⟨?_, (getLayerBounds_spec singleItemLayer).2.1, by norm_num⟩
  exact (getLayerBounds_spec singleItemLayer).2.2.1
    ⟨21, "", false, ItemKind.pathItem, false, none, false, none, some ⟨1, 9, 7, 2⟩⟩
    ⟨1, 9, 7, 2⟩ rfl rfl (by decide) rfl

/-! ## C8 — property-read faults are swallowed -/

/-- C8: a raised color-property read never escapes the classifier — the item
is classified exactly by the name rule (false when the name matched
nothing); and a raised geometry read never escapes the bounds aggregation —
the unreadable item is skipped and the fold continues with the remaining
items unchanged. -/
theorem property_read_faults (d : ItemData) (cs rest : ItemList) (acc : Option Box) :
    (colorCheck d = Except.error () → shouldHideItem d = nameRuleMatches d) ∧
    (d.hidden = false → d.kind ≠ ItemKind.groupItem → d.geom = none →
      collectBoundsRecursive (ItemList.cons (Item.mk d cs) rest) acc =
        collectBoundsRecursive rest acc) := by
  constructor
  · intro hcc
    by_cases hn : nameRuleMatches d
    · simp [shouldHideItem, hn]
    · simp [shouldHideItem, hn, hcc]
  · intro hh hk hgeo
    simp [collectBoundsRecursive, itemGeomBounds, hh, hk, hgeo]

/-- Witness for C8: the classifier and aggregator on a concrete faulty item. -/
theorem property_read_faults_witness :
    colorCheck dFaultPath = Except.error () ∧
    shouldHideItem dFaultPath = nameRuleMatches dFaultPath ∧
    collectBoundsRecursive (ItemList.cons (Item.mk dFaultPath ItemList.nil)
        ItemList.nil) none = collectBoundsRecursive ItemList.nil none :=
  ⟨rfl,
   (property_read_faults dFaultPath ItemList.nil ItemList.nil none).1 rfl,
   (property_read_faults dFaultPath ItemList.nil ItemList.nil none).2 rfl
     (by decide) rfl⟩

/-! ## C1 — layer visibility discipline of the orchestrator -/

theorem length_setVisAux (i : Nat) :
    ∀ (j : Nat) (ls : List Layer), (setVisAux i j ls).length = ls.length := by
  intro j ls
  induction ls generalizing j with
  | nil => rfl
  | cons l t ih => simp [setVisAux, ih]

theorem map_vis_setVisAux (i : Nat) :
    ∀ (j : Nat) (ls : List Layer),
      (setVisAux i j ls).map (fun l => l.visible) = indicatorFrom i j ls.length := by
  intro j ls
  induction ls generalizing j with
  | nil => rfl
  | cons l t ih => simp [setVisAux, indicatorFrom, ih]

theorem length_setItemsAt :
    ∀ (ls : List Layer) (i : Nat) (t : ItemList),
      (setItemsAt ls i t).length = ls.length := by
  intro ls
  induction ls with
  | nil => intro i t; rfl
  | cons l rest ih =>
    intro i t
    cases i with
    | zero => rfl
    | succ n => simp [setItemsAt, ih]

theorem map_vis_setItemsAt :
    ∀ (ls : List Layer) (i : Nat) (t : ItemList),
      (setItemsAt ls i t).map (fun l => l.visible) = ls.map (fun l => l.visible) := by
  intro ls
  induction ls with
  | nil => intro i t; rfl
  | cons l rest ih =>
    intro i t
    cases i with
    | zero => rfl
    | succ n => simp [setItemsAt, ih]

theorem getD_indicatorFrom (i : Nat) :
    ∀ (n j k : Nat),
      ((indicatorFrom i j n).getD k false = true) ↔ (j + k = i ∧ k < n) := by
  intro n
  induction n with
  | zero => intro j k; simp [indicatorFrom]
  | succ n ih =>
    intro j k
    cases k with
    | zero => simp [indicatorFrom]
    | succ k =>
      simp only [indicatorFrom, List.getD_cons_succ, ih (j + 1) k]
      omega

theorem map_vis_zipWith :
    ∀ (ls : List Layer) (vs : List Bool), ls.length = vs.length →
      (List.zipWith (fun l v => { l with visible := v }) ls vs).map
        (fun l => l.visible) = vs := by
  intro ls
  induction ls with
  | nil =>
    intro vs h
    cases vs with
    | nil => rfl
    | cons v t => simp at h
  | cons l rest ih =>
    intro vs h
    cases vs with
    | nil => simp at h
    | cons v t =>
      simp only [List.zipWith_cons_cons, List.map_cons]
      rw [ih t (by simpa using h)]

theorem exportOne_inv {n : Nat} (render : Nat → String → Box → Bool)
    (st : LoopState) (i : Nat) (layer : Layer) (layerName outputName : String)
    (bw bh : ℚ) (hi : i < n) (h : VisInv n st) :
    VisInv n (exportOne render st i layer layerName outputName bw bh) := by
  obtain ⟨hlen, hreq⟩ := h
  have hlen3 : ∀ t u : ItemList,
      (setItemsAt (setItemsAt (setVisAux i 0 st.layers) i t) i u).length = n := by
    intro t u
    rw [length_setItemsAt, length_setItemsAt, length_setVisAux, hlen]
  have hvis : ∀ t : ItemList,
      (setItemsAt (setVisAux i 0 st.layers) i t).map (fun l => l.visible) =
        indicatorFrom i 0 n := by
    intro t
    rw [map_vis_setItemsAt, map_vis_setVisAux, hlen]
  unfold exportOne
  dsimp only
  split
  · exact ⟨hlen3 _ _, hreq⟩
  · refine ⟨hlen3 _ _, ?_⟩
    intro r hr
    simp only [List.mem_append, List.mem_singleton] at hr
    rcases hr with hr | hr
    · exact hreq r hr
    · subst hr
      exact ⟨hi, hvis _⟩

theorem stepLayer_inv {n : Nat} (render : Nat → String → Box → Bool)
    (st : LoopState) (i : Nat) (hi : i < n) (h : VisInv n st) :
    VisInv n (stepLayer render st i) := by
  unfold stepLayer
  dsimp only
  cases hopt : st.layers[i]? with
  | none => exact h
  | some layer =>
    dsimp only
    cases hres : resolveSize (trimName layer.name) with
    | unknownNumeric => exact ⟨h.1, h.2⟩
    | notApplicable => exact h
    | mapped outputName bw bh tg => exact exportOne_inv render st i layer _ _ bw bh hi h
    | derived outputName bw bh => exact exportOne_inv render st i layer _ _ bw bh hi h

theorem foldl_loop_inv (f : LoopState → Nat → LoopState) (P : LoopState → Prop) :
    ∀ (xs : List Nat) (st : LoopState),
      (∀ s x, x ∈ xs → P s → P (f s x)) → P st → P (xs.foldl f st) := by
  intro xs
  induction xs with
  | nil => intro st _ h; exact h
  | cons x t ih =>
    intro st hf h
    exact ih (f st x) (fun s y hy => hf s y (by simp [hy])) (hf st x (by simp) h)

/-- C1: for every document and every render collaborator (every layer
processing path included), after `exportByLayers` returns every layer's
`visible` flag equals its value before the run; and for every render request
the orchestrator ever emitted, at emission time exactly the requested layer
was visible and every other layer was not. -/
theorem exportByLayers_visibility (render : Nat → String → Box → Bool)
    (layers0 : List Layer) :
    ((exportByLayers render layers0).layers.map (fun l => l.visible) =
      layers0.map (fun l => l.visible)) ∧
    ∀ r ∈ (exportByLayers render layers0).requests,
      r.layerIdx < layers0.length ∧
      ∀ j, (r.visSnapshot.getD j false = true ↔ j = r.layerIdx) := by
  have hinv : VisInv layers0.length
      ((List.range layers0.length).foldl (stepLayer render)
        ⟨layers0, 0, 0, [], []⟩) := by
    apply foldl_loop_inv (stepLayer render) (VisInv layers0.length)
    · intro s x hx hs
      exact stepLayer_inv render s x (List.mem_range.1 hx) hs
    · exact ⟨rfl, by intro r hr; cases hr⟩
  simp only [exportByLayers]
  constructor
  · apply map_vis_zipWith
    rw [hinv.1, List.length_map]
  · intro r hr
    have hr' := hinv.2 r hr
    refine ⟨hr'.1, ?_⟩
    intro j
    rw [hr'.2, getD_indicatorFrom]
    omega

/-! ## C5 — end-to-end run on the four-layer document -/

set_option maxHeartbeats 1000000 in
/-- C5: on the four-layer document the run produces exactly two export
requests — `79x90.png` with an 85.04×95.67 region and `54x72.png` with a
57×75 region — the outcome list holds one skip-with-warning line for `999`
and no line at all for `abc`, the exported count is 2, and all four layers'
original visibility is restored after the run. -/
theorem exportByLayers_end_to_end :
    (exportByLayers renderOk demoLayers).exported = 2 ∧
    (exportByLayers renderOk demoLayers).requests.map
        (fun r => (r.filename, r.rect.right - r.rect.left, r.rect.top - r.rect.bottom)) =
      [("79x90.png", 85.04, 95.67), ("54x72.png", 57, 75)] ∧
    (exportByLayers renderOk demoLayers).details =
      [DetailLine.success "35" "79x90" 85.04 95.67,
       DetailLine.skippedNotInMapping "999",
       DetailLine.success "54x72" "54x72" 57 75] ∧
    (exportByLayers renderOk demoLayers).layers.map (fun l => l.visible) =
      [true, false, true, true] := by
  simp [exportByLayers, stepLayer, exportOne, resolveSize, sizeMapping, trimName,
    isSpaceChar, List.dropWhile, regexWxH, regexAllDigits, splitOnChar, natOfDigits,
    hideAllCutContourItems, hideList, hideItem, shouldHideItem, nameRuleMatches,
    isCutContourName, colorCheck, getLayerBounds, collectBoundsRecursive,
    itemGeomBounds, mergeBounds, restoreItems, restoreList, restoreItem, setVisAux,
    setItemsAt, plainLeaf, demoLayers, renderOk, List.range_succ]

set_option maxHeartbeats 1000000 in
/-- Witness for C1: the demo run restores all four visibility flags, and its
first request was emitted with exactly layer 0 visible. -/
theorem exportByLayers_visibility_witness :
    demoReq ∈ (exportByLayers renderOk demoLayers).requests ∧
    ((exportByLayers renderOk demoLayers).layers.map (fun l => l.visible) =
      demoLayers.map (fun l => l.visible)) ∧
    demoReq.layerIdx < demoLayers.length ∧
    (demoReq.visSnapshot.getD 0 false = true ↔ 0 = demoReq.layerIdx) ∧
    (demoReq.visSnapshot.getD 1 false = true ↔ 1 = demoReq.layerIdx) := by
  have hmem : demoReq ∈ (exportByLayers renderOk demoLayers).requests := by
    simp [exportByLayers, stepLayer, exportOne, resolveSize, sizeMapping, trimName,
      isSpaceChar, List.dropWhile, regexWxH, regexAllDigits, splitOnChar, natOfDigits,
      hideAllCutContourItems, hideList, hideItem, shouldHideItem, nameRuleMatches,
      isCutContourName, colorCheck, getLayerBounds, collectBoundsRecursive,
      itemGeomBounds, mergeBounds, restoreItems, restoreList, restoreItem, setVisAux,
      setItemsAt, plainLeaf, demoLayers, renderOk, demoReq, List.range_succ]
    norm_num
  have h := exportByLayers_visibility renderOk demoLayers
  exact ⟨hmem, h.1, (h.2 demoReq hmem).1, (h.2 demoReq hmem).2 0, (h.2 demoReq hmem).2 1⟩
